import Mathlib

/-!
# Verification of the p81-eng-metrics scoring engine

Shallow embedding of `dev_productivity_app/calculator/score_calculator.py`.
Python floats are modelled as rationals (`ℚ`), dictionaries as association
lists (`List (String × _)`, first entry wins on lookup, insertion order
preserved), and `dict.get(key, default)` as `Option.getD`.
-/

namespace ScoreCalc

/-- Per-member raw counters, mirroring the inner dictionaries of
`raw_data["metrics"]`.  A `none` field models an absent key; every read in
the source goes through `data.get(key, 0)`. -/
structure Metrics where
  items_completed : Option ℚ := none
  prs_authored : Option ℚ := none
  code_reviews : Option ℚ := none
deriving Repr, DecidableEq

/-- `raw_data["metrics"]`: member name → raw counters, in insertion order. -/
abbrev RawMetrics := List (String × Metrics)

/-- `config["weights"]`: counter name → weight. -/
abbrev Weights := List (String × ℚ)

/-- Evaluation form of `List.lookup` on a cons cell, with a propositional
condition so that `simp` can discharge string comparisons. -/
theorem lookup_cons_eq_if {α β : Type} [BEq α] [LawfulBEq α] [DecidableEq α] (a k : α) (b : β)
    (l : List (α × β)) :
    List.lookup a ((k, b) :: l) = if a = k then some b else List.lookup a l := by
  rw [List.lookup_cons]
  by_cases h : a = k
  · simp [h]
  · simp [h, beq_eq_false_iff_ne.mpr h]

/-- `data.get("items_completed", 0)`. -/
def itemsOf (m : Metrics) : ℚ := m.items_completed.getD 0

/-- `data.get("prs_authored", 0)`. -/
def prsOf (m : Metrics) : ℚ := m.prs_authored.getD 0

/-- `data.get("code_reviews", 0)`. -/
def reviewsOf (m : Metrics) : ℚ := m.code_reviews.getD 0

/-- Python `max(iterable, default=0)` on numbers: `0` on the empty
iterable, otherwise the running maximum. -/
def pyMax : List ℚ → ℚ
  | [] => 0
  | x :: xs => xs.foldl (fun acc y => if acc < y then y else acc) x

/-- `sum(weights.values())`. -/
def weightSum (w : Weights) : ℚ := (w.map Prod.snd).sum

/-- Lines 27-30 of `score_calculator.py`:
`if weight_sum > 0 and abs(weight_sum - 1.0) > 0.01:` divide every weight
by the sum, otherwise pass the weights through unchanged. -/
def normalizeWeights (w : Weights) : Weights :=
  if 0 < weightSum w ∧ 1/100 < |weightSum w - 1| then
    w.map (fun kv => (kv.1, kv.2 / weightSum w))
  else w

/-- `weights.get(key, default)`. -/
def getWeight (w : Weights) (key : String) (default : ℚ) : ℚ :=
  (w.lookup key).getD default

/-- `max(m.get("items_completed", 0) for m in metrics.values())`, default 0. -/
def maxItems (metrics : RawMetrics) : ℚ := pyMax (metrics.map fun nm => itemsOf nm.2)

/-- `max(m.get("prs_authored", 0) for m in metrics.values())`, default 0. -/
def maxPrs (metrics : RawMetrics) : ℚ := pyMax (metrics.map fun nm => prsOf nm.2)

/-- `max(m.get("code_reviews", 0) for m in metrics.values())`, default 0. -/
def maxReviews (metrics : RawMetrics) : ℚ := pyMax (metrics.map fun nm => reviewsOf nm.2)

/-- One member's score dictionary as produced by `calculate_scores`. -/
structure ScoreRecord where
  items_score : ℚ
  prs_score : ℚ
  reviews_score : ℚ
  items_weighted : ℚ
  prs_weighted : ℚ
  reviews_weighted : ℚ
  total : ℚ
deriving Repr, DecidableEq

/-- The body of the `for name, data in metrics.items()` loop of
`calculate_scores` (lines 47-77): scale each counter by the team maximum
(0 when the maximum is not positive), apply the looked-up weight with the
documented defaults 0.5 / 0.3 / 0.2, and total the weighted parts. -/
def scoreMember (weights : Weights) (mi mp mr : ℚ) (data : Metrics) : ScoreRecord :=
  let items := itemsOf data
  let prs := prsOf data
  let reviews := reviewsOf data
  let items_score : ℚ := if 0 < mi then items / mi * 100 else 0
  let prs_score : ℚ := if 0 < mp then prs / mp * 100 else 0
  let reviews_score : ℚ := if 0 < mr then reviews / mr * 100 else 0
  let items_weight := getWeight weights "items_completed" (1/2)
  let prs_weight := getWeight weights "prs_authored" (3/10)
  let reviews_weight := getWeight weights "code_reviews" (1/5)
  let items_weighted := items_score * items_weight
  let prs_weighted := prs_score * prs_weight
  let reviews_weighted := reviews_score * reviews_weight
  { items_score := items_score
    prs_score := prs_score
    reviews_score := reviews_score
    items_weighted := items_weighted
    prs_weighted := prs_weighted
    reviews_weighted := reviews_weighted
    total := items_weighted + prs_weighted + reviews_weighted }

/-- `calculate_scores(raw_data, config)` with `metrics = raw_data.get("metrics", {})`
and `weights = config.get("weights", {})` already extracted: empty metrics
yield the empty dictionary, otherwise normalize the weights, compute the
three team maxima, and score every member in order. -/
def calculate_scores (metrics : RawMetrics) (weights : Weights) :
    List (String × ScoreRecord) :=
  if metrics = [] then []
  else
    let w := normalizeWeights weights
    metrics.map fun nd =>
      (nd.1, scoreMember w (maxItems metrics) (maxPrs metrics) (maxReviews metrics) nd.2)

/-- The sort key of `rank_scores`: `sorted(scores.items(), key=lambda x:
x[1]["total"], reverse=True)` orders by total descending.  `totalDesc a b`
says `a` may come before `b`. -/
def totalDesc (a b : String × ScoreRecord) : Prop := b.2.total ≤ a.2.total

instance : DecidableRel totalDesc := fun a b =>
  inferInstanceAs (Decidable (b.2.total ≤ a.2.total))

instance : IsTotal (String × ScoreRecord) totalDesc :=
  ⟨fun a b => le_total b.2.total a.2.total⟩

instance : IsTrans (String × ScoreRecord) totalDesc :=
  ⟨fun _ _ _ h1 h2 => le_trans h2 h1⟩

/-- One entry of the list returned by `rank_scores`: the member's score
dictionary spread together with `"rank"` and `"name"`. -/
structure RankedEntry where
  rank : ℕ
  name : String
  record : ScoreRecord
deriving Repr, DecidableEq

/-- The tie-handling step of `rank_scores` (lines 108-110): at 0-based
position `i`, a total strictly below the previous one (when there is a
previous one) resets the rank to `i + 1`; otherwise the previous rank is
kept. -/
def nextRank (i currentRank : ℕ) (prevTotal : Option ℚ) (t : ℚ) : ℕ :=
  match prevTotal with
  | some p => if t < p then i + 1 else currentRank
  | none => currentRank

/-- The `for i, (name, score_data) in enumerate(sorted_members)` loop of
`rank_scores` (lines 106-119): `i` is the 0-based position, `currentRank`
the rank of the previous entry, `prevTotal` its total (`none` before the
first iteration). -/
def rankLoop : ℕ → ℕ → Option ℚ → List (String × ScoreRecord) → List RankedEntry
  | _, _, _, [] => []
  | i, currentRank, prevTotal, (name, sd) :: rest =>
    ⟨nextRank i currentRank prevTotal sd.total, name, sd⟩ ::
      rankLoop (i + 1) (nextRank i currentRank prevTotal sd.total) (some sd.total) rest

/-- `rank_scores(scores)`: stable-sort the members by total descending and
walk the result assigning competition ranks.  Python's `sorted` with
`reverse=True` is a stable descending sort; `List.insertionSort totalDesc`
inserts every element in front of the first entry whose total is less than
or equal to its own, which is the same stable descending order. -/
def rank_scores (scores : List (String × ScoreRecord)) : List RankedEntry :=
  if scores = [] then []
  else rankLoop 0 1 none (List.insertionSort totalDesc scores)

/-- One member's entry in `calculate_component_contributions`. -/
structure Contribution where
  items_pct : ℚ
  prs_pct : ℚ
  reviews_pct : ℚ
deriving Repr, DecidableEq

/-- The loop body of `calculate_component_contributions` (lines 136-152):
percentage share of each weighted component in the member's total, all 0
when the total is not positive. -/
def contributionOf (data : ScoreRecord) : Contribution :=
  if 0 < data.total then
    { items_pct := data.items_weighted / data.total * 100
      prs_pct := data.prs_weighted / data.total * 100
      reviews_pct := data.reviews_weighted / data.total * 100 }
  else
    { items_pct := 0, prs_pct := 0, reviews_pct := 0 }

/-- `calculate_component_contributions(scores)`. -/
def calculate_component_contributions (scores : List (String × ScoreRecord)) :
    List (String × Contribution) :=
  scores.map fun nd => (nd.1, contributionOf nd.2)

/-- One member's entry in `compare_periods`. -/
structure TrendRecord where
  current : ℚ
  previous : ℚ
  change : ℚ
  trend : String
deriving Repr, DecidableEq

/-- `scores.get(name, {}).get("total", 0)`. -/
def getTotal (scores : List (String × ScoreRecord)) (name : String) : ℚ :=
  ((scores.lookup name).map ScoreRecord.total).getD 0

/-- A score dictionary carrying only a `"total"` key, every other field
read through `.get(key, 0)` as 0 — such as the literal `{"total": 80.3}`
inputs used with `compare_periods`. -/
def totalOnly (t : ℚ) : ScoreRecord :=
  { items_score := 0, prs_score := 0, reviews_score := 0, items_weighted := 0
    prs_weighted := 0, reviews_weighted := 0, total := t }

/-- The body of the `for name in all_names` loop of `compare_periods`
(lines 169-187): totals defaulting to 0 for an absent member, signed
change, and the 0.5-deadband trend label. -/
def trendFor (current_scores previous_scores : List (String × ScoreRecord))
    (name : String) : TrendRecord :=
  let current := getTotal current_scores name
  let previous := getTotal previous_scores name
  let change := current - previous
  let trend : String :=
    if 1/2 < change then "up"
    else if change < -(1/2) then "down"
    else "stable"
  { current := current, previous := previous, change := change, trend := trend }

/-- `compare_periods(current_scores, previous_scores)` (lines 155-189):
iterate over the union of the two key sets (modelled as the deduplicated
concatenation of the two key lists), building each member's trend record. -/
def compare_periods (current_scores previous_scores : List (String × ScoreRecord)) :
    List (String × TrendRecord) :=
  ((current_scores.map Prod.fst ++ previous_scores.map Prod.fst).dedup).map fun name =>
    (name, trendFor current_scores previous_scores name)

/-! ## Helper lemmas -/

/-- Looking a key up in a value-mapped association list maps the lookup. -/
theorem lookup_map_snd {β γ : Type} (f : β → γ) (l : List (String × β)) (a : String) :
    (l.map fun kv => (kv.1, f kv.2)).lookup a = (l.lookup a).map f := by
  induction l with
  | nil => rfl
  | cons kv rest ih =>
    obtain ⟨k, b⟩ := kv
    by_cases h : a = k
    · simp [lookup_cons_eq_if, h]
    · simp [lookup_cons_eq_if, h, ih]

/-- `calculate_scores` is a per-member map: looking up a member in its
output scores that member's raw data with the normalized weights and the
three team maxima. -/
theorem calculate_scores_lookup (metrics : RawMetrics) (weights : Weights) (name : String) :
    (calculate_scores metrics weights).lookup name =
      (metrics.lookup name).map
        (scoreMember (normalizeWeights weights) (maxItems metrics) (maxPrs metrics)
          (maxReviews metrics)) := by
  unfold calculate_scores
  by_cases h : metrics = []
  · subst h; rfl
  · rw [if_neg h, lookup_map_snd]

/-- The fold step of `pyMax` is `max`. -/
theorem pyMax_step_eq_max (a b : ℚ) : (if a < b then b else a) = max a b := by
  rcases lt_or_ge a b with h | h
  · simp [h, max_eq_right h.le]
  · simp [not_lt.mpr h, max_eq_left h]

/-- `pyMax` on a cons cell. -/
theorem pyMax_cons (x : ℚ) (xs : List ℚ) : pyMax (x :: xs) = xs.foldl max x := by
  show xs.foldl (fun acc y => if acc < y then y else acc) x = xs.foldl max x
  have : (fun acc y : ℚ => if acc < y then y else acc) = max := by
    funext a b; exact pyMax_step_eq_max a b
  rw [this]

/-- The accumulator bounds a `foldl max` from below. -/
theorem le_foldl_max (xs : List ℚ) (acc : ℚ) : acc ≤ xs.foldl max acc := by
  induction xs generalizing acc with
  | nil => exact le_refl acc
  | cons y ys ih => exact le_trans (le_max_left acc y) (ih (max acc y))

/-- Every element bounds a `foldl max` from below. -/
theorem mem_le_foldl_max (xs : List ℚ) (acc x : ℚ) (h : x ∈ xs) : x ≤ xs.foldl max acc := by
  induction xs generalizing acc with
  | nil => cases h
  | cons y ys ih =>
    rcases List.mem_cons.mp h with rfl | hmem
    · exact le_trans (le_max_right acc x) (le_foldl_max ys (max acc x))
    · exact ih (max acc y) hmem

/-- A `foldl max` stays below any bound on the accumulator and elements. -/
theorem foldl_max_le (xs : List ℚ) (acc v : ℚ) (hacc : acc ≤ v)
    (h : ∀ x ∈ xs, x ≤ v) : xs.foldl max acc ≤ v := by
  induction xs generalizing acc with
  | nil => exact hacc
  | cons y ys ih =>
    exact ih (max acc y) (max_le hacc (h y (List.mem_cons_self y ys)))
      fun x hx => h x (List.mem_cons_of_mem y hx)

/-- Every element of a list is at most its `pyMax`. -/
theorem le_pyMax (l : List ℚ) (x : ℚ) (h : x ∈ l) : x ≤ pyMax l := by
  match l with
  | [] => cases h
  | y :: ys =>
    rw [pyMax_cons]
    rcases List.mem_cons.mp h with rfl | hmem
    · exact le_foldl_max ys x
    · exact mem_le_foldl_max ys y x hmem

/-- `pyMax` of a list is the value attained by a member that dominates
every element. -/
theorem pyMax_eq_of_mem_of_le (l : List ℚ) (v : ℚ) (hv : v ∈ l)
    (h : ∀ x ∈ l, x ≤ v) : pyMax l = v := by
  refine le_antisymm ?_ (le_pyMax l v hv)
  match l with
  | [] => cases hv
  | y :: ys =>
    rw [pyMax_cons]
    exact foldl_max_le ys y v (h y (List.mem_cons_self y ys))
      fun x hx => h x (List.mem_cons_of_mem y hx)

/-- `pyMax` of an all-zero list is 0 (also for the empty list, by the
`default=0` of Python's `max`). -/
theorem pyMax_eq_zero (l : List ℚ) (h : ∀ x ∈ l, x = 0) : pyMax l = 0 := by
  match l with
  | [] => rfl
  | y :: ys =>
    exact pyMax_eq_of_mem_of_le (y :: ys) 0
      (h y (List.mem_cons_self y ys) ▸ List.mem_cons_self y ys)
      fun x hx => le_of_eq (h x hx)

/-- A successful association-list lookup comes from an entry of the list. -/
theorem mem_of_lookup_eq_some {β : Type} (l : List (String × β)) (a : String) (b : β)
    (h : l.lookup a = some b) : (a, b) ∈ l := by
  induction l with
  | nil => cases h
  | cons kv rest ih =>
    obtain ⟨k, v⟩ := kv
    rw [lookup_cons_eq_if] at h
    by_cases hk : a = k
    · subst hk
      rw [if_pos rfl] at h
      cases h
      exact List.mem_cons_self _ _
    · exact List.mem_cons_of_mem _ (ih (by rwa [if_neg hk] at h))

/-- `weightSum` on a cons cell. -/
theorem weightSum_cons (k : String) (v : ℚ) (rest : Weights) :
    weightSum ((k, v) :: rest) = v + weightSum rest := by
  simp [weightSum]

/-- Dividing every weight divides the sum. -/
theorem weightSum_map_div (w : Weights) (s : ℚ) :
    weightSum (w.map fun kv => (kv.1, kv.2 / s)) = weightSum w / s := by
  induction w with
  | nil => simp [weightSum]
  | cons kv rest ih =>
    obtain ⟨k, v⟩ := kv
    simp only [List.map_cons]
    rw [weightSum_cons, weightSum_cons, ih, add_div]

/-- The total of any record produced by `calculate_scores` is the sum of
its three weighted components (shared helper). -/
theorem lookup_total_eq_sum (metrics : RawMetrics) (weights : Weights)
    (name : String) (r : ScoreRecord)
    (h : (calculate_scores metrics weights).lookup name = some r) :
    r.total = r.items_weighted + r.prs_weighted + r.reviews_weighted := by
  rw [calculate_scores_lookup] at h
  obtain ⟨data, _, rfl⟩ := Option.map_eq_some'.mp h
  rfl

/-! ## Claim theorems -/

/-- C10: every `ScoreRecord` produced by `calculate_scores` satisfies
`total = items_weighted + prs_weighted + reviews_weighted` exactly as
computed, and each weighted field equals the corresponding component
score multiplied by its looked-up (normalized-or-default) weight. -/
theorem calculate_scores_total_eq_sum_weighted (metrics : RawMetrics) (weights : Weights)
    (name : String) (r : ScoreRecord)
    (h : (calculate_scores metrics weights).lookup name = some r) :
    r.total = r.items_weighted + r.prs_weighted + r.reviews_weighted ∧
    r.items_weighted = r.items_score * getWeight (normalizeWeights weights) "items_completed" (1/2) ∧
    r.prs_weighted = r.prs_score * getWeight (normalizeWeights weights) "prs_authored" (3/10) ∧
    r.reviews_weighted = r.reviews_score * getWeight (normalizeWeights weights) "code_reviews" (1/5) := by
  rw [calculate_scores_lookup] at h
  obtain ⟨data, _, rfl⟩ := Option.map_eq_some'.mp h
  exact ⟨rfl, rfl, rfl, rfl⟩

/-- Witness for C10 at a concrete input: one member with 2 completed
items and no configured weights. -/
theorem calculate_scores_total_eq_sum_weighted_witness :
    (calculate_scores [("A", { items_completed := some 2 })] []).lookup "A" =
        some { items_score := 100, prs_score := 0, reviews_score := 0, items_weighted := 50,
               prs_weighted := 0, reviews_weighted := 0, total := 50 } ∧
    ((50 : ℚ) = 50 + 0 + 0 ∧
     (50 : ℚ) = 100 * getWeight (normalizeWeights []) "items_completed" (1/2) ∧
     (0 : ℚ) = 0 * getWeight (normalizeWeights []) "prs_authored" (3/10) ∧
     (0 : ℚ) = 0 * getWeight (normalizeWeights []) "code_reviews" (1/5)) := by
  have h : (calculate_scores [("A", { items_completed := some 2 })] []).lookup "A" =
      some { items_score := 100, prs_score := 0, reviews_score := 0, items_weighted := 50,
             prs_weighted := 0, reviews_weighted := 0, total := 50 } := by
    norm_num +decide [calculate_scores, scoreMember, normalizeWeights, weightSum, getWeight,
      maxItems, maxPrs, maxReviews, pyMax, itemsOf, prsOf, reviewsOf, lookup_cons_eq_if, lt_abs]
  exact ⟨h, calculate_scores_total_eq_sum_weighted _ _ _ _ h⟩

/-- C2 (amended): each member's component score is `(raw / team_max) * 100`
when the team maximum for that counter is positive and `0.0` otherwise;
consequently a member whose raw value for a counter dominates the whole
team scores exactly 100 there, provided that value is positive. -/
theorem calculate_scores_scaling (metrics : RawMetrics) (weights : Weights)
    (name : String) (data : Metrics) (h : metrics.lookup name = some data) :
    ∃ r, (calculate_scores metrics weights).lookup name = some r ∧
      r.items_score = (if 0 < maxItems metrics then itemsOf data / maxItems metrics * 100 else 0) ∧
      r.prs_score = (if 0 < maxPrs metrics then prsOf data / maxPrs metrics * 100 else 0) ∧
      r.reviews_score =
        (if 0 < maxReviews metrics then reviewsOf data / maxReviews metrics * 100 else 0) ∧
      ((∀ nd ∈ metrics, itemsOf nd.2 ≤ itemsOf data) → 0 < itemsOf data →
        r.items_score = 100) ∧
      ((∀ nd ∈ metrics, prsOf nd.2 ≤ prsOf data) → 0 < prsOf data →
        r.prs_score = 100) ∧
      ((∀ nd ∈ metrics, reviewsOf nd.2 ≤ reviewsOf data) → 0 < reviewsOf data →
        r.reviews_score = 100) := by
  refine ⟨scoreMember (normalizeWeights weights) (maxItems metrics) (maxPrs metrics)
    (maxReviews metrics) data, ?_, rfl, rfl, rfl, ?_, ?_, ?_⟩
  · rw [calculate_scores_lookup, h, Option.map_some']
  · intro hdom hpos
    have hmax : maxItems metrics = itemsOf data := by
      refine pyMax_eq_of_mem_of_le _ _ ?_ ?_
      · exact List.mem_map.mpr ⟨(name, data), mem_of_lookup_eq_some _ _ _ h, rfl⟩
      · intro x hx
        obtain ⟨nd, hnd, rfl⟩ := List.mem_map.mp hx
        exact hdom nd hnd
    show (if 0 < maxItems metrics then itemsOf data / maxItems metrics * 100 else 0) = 100
    rw [hmax, if_pos hpos, div_self (ne_of_gt hpos), one_mul]
  · intro hdom hpos
    have hmax : maxPrs metrics = prsOf data := by
      refine pyMax_eq_of_mem_of_le _ _ ?_ ?_
      · exact List.mem_map.mpr ⟨(name, data), mem_of_lookup_eq_some _ _ _ h, rfl⟩
      · intro x hx
        obtain ⟨nd, hnd, rfl⟩ := List.mem_map.mp hx
        exact hdom nd hnd
    show (if 0 < maxPrs metrics then prsOf data / maxPrs metrics * 100 else 0) = 100
    rw [hmax, if_pos hpos, div_self (ne_of_gt hpos), one_mul]
  · intro hdom hpos
    have hmax : maxReviews metrics = reviewsOf data := by
      refine pyMax_eq_of_mem_of_le _ _ ?_ ?_
      · exact List.mem_map.mpr ⟨(name, data), mem_of_lookup_eq_some _ _ _ h, rfl⟩
      · intro x hx
        obtain ⟨nd, hnd, rfl⟩ := List.mem_map.mp hx
        exact hdom nd hnd
    show (if 0 < maxReviews metrics then reviewsOf data / maxReviews metrics * 100 else 0) = 100
    rw [hmax, if_pos hpos, div_self (ne_of_gt hpos), one_mul]

/-- C2 fails as stated: in an all-zero metric set the sole member holds
the largest raw value for every counter, yet its scaled score is 0, not
100. -/
theorem calculate_scores_scaling_counterexample :
    maxItems [("A", { items_completed := some 0 })] =
        itemsOf ({ items_completed := some 0 } : Metrics) ∧
    ((calculate_scores [("A", { items_completed := some 0 })] []).lookup "A").map
        ScoreRecord.items_score = some 0 ∧
    (0 : ℚ) ≠ 100 := by
  norm_num +decide [calculate_scores, scoreMember, normalizeWeights, weightSum, getWeight,
    maxItems, maxPrs, maxReviews, pyMax, itemsOf, prsOf, reviewsOf, lookup_cons_eq_if, lt_abs]

/-- Witness for C2 at a concrete input: two members, "A" leading items
with 3 against 1. -/
theorem calculate_scores_scaling_witness :
    ([("A", { items_completed := some 3 }), ("B", { items_completed := some 1 })] :
        RawMetrics).lookup "A" = some { items_completed := some 3 } ∧
    (∃ r, (calculate_scores
        [("A", { items_completed := some 3 }), ("B", { items_completed := some 1 })]
        []).lookup "A" = some r ∧
      r.items_score = (if 0 < maxItems
          [("A", { items_completed := some 3 }), ("B", { items_completed := some 1 })] then
            itemsOf ({ items_completed := some 3 } : Metrics) / maxItems
              [("A", { items_completed := some 3 }), ("B", { items_completed := some 1 })] * 100
          else 0) ∧
      r.prs_score = (if 0 < maxPrs
          [("A", { items_completed := some 3 }), ("B", { items_completed := some 1 })] then
            prsOf ({ items_completed := some 3 } : Metrics) / maxPrs
              [("A", { items_completed := some 3 }), ("B", { items_completed := some 1 })] * 100
          else 0) ∧
      r.reviews_score = (if 0 < maxReviews
          [("A", { items_completed := some 3 }), ("B", { items_completed := some 1 })] then
            reviewsOf ({ items_completed := some 3 } : Metrics) / maxReviews
              [("A", { items_completed := some 3 }), ("B", { items_completed := some 1 })] * 100
          else 0) ∧
      ((∀ nd ∈ ([("A", { items_completed := some 3 }), ("B", { items_completed := some 1 })] :
          RawMetrics), itemsOf nd.2 ≤ itemsOf ({ items_completed := some 3 } : Metrics)) →
        0 < itemsOf ({ items_completed := some 3 } : Metrics) → r.items_score = 100) ∧
      ((∀ nd ∈ ([("A", { items_completed := some 3 }), ("B", { items_completed := some 1 })] :
          RawMetrics), prsOf nd.2 ≤ prsOf ({ items_completed := some 3 } : Metrics)) →
        0 < prsOf ({ items_completed := some 3 } : Metrics) → r.prs_score = 100) ∧
      ((∀ nd ∈ ([("A", { items_completed := some 3 }), ("B", { items_completed := some 1 })] :
          RawMetrics), reviewsOf nd.2 ≤ reviewsOf ({ items_completed := some 3 } : Metrics)) →
        0 < reviewsOf ({ items_completed := some 3 } : Metrics) → r.reviews_score = 100)) := by
  have h : ([("A", { items_completed := some 3 }), ("B", { items_completed := some 1 })] :
      RawMetrics).lookup "A" = some { items_completed := some 3 } := by
    norm_num +decide [lookup_cons_eq_if]
  exact ⟨h, calculate_scores_scaling _ [] _ _ h⟩

/-- C8: if every member has raw value 0 for a counter then that counter's
team maximum is 0, the `max > 0` guard fails (so the division is never
taken), and every member's scaled value for the counter is 0. -/
theorem calculate_scores_zero_max (metrics : RawMetrics) (weights : Weights)
    (name : String) (r : ScoreRecord)
    (h : (calculate_scores metrics weights).lookup name = some r) :
    ((∀ nd ∈ metrics, itemsOf nd.2 = 0) → maxItems metrics = 0 ∧ r.items_score = 0) ∧
    ((∀ nd ∈ metrics, prsOf nd.2 = 0) → maxPrs metrics = 0 ∧ r.prs_score = 0) ∧
    ((∀ nd ∈ metrics, reviewsOf nd.2 = 0) → maxReviews metrics = 0 ∧ r.reviews_score = 0) := by
  rw [calculate_scores_lookup] at h
  obtain ⟨data, _, rfl⟩ := Option.map_eq_some'.mp h
  refine ⟨fun hz => ?_, fun hz => ?_, fun hz => ?_⟩
  · have hm : maxItems metrics = 0 := by
      refine pyMax_eq_zero _ fun x hx => ?_
      obtain ⟨nd, hnd, rfl⟩ := List.mem_map.mp hx
      exact hz nd hnd
    refine ⟨hm, ?_⟩
    show (if 0 < maxItems metrics then itemsOf data / maxItems metrics * 100 else 0) = 0
    rw [hm, if_neg (lt_irrefl 0)]
  · have hm : maxPrs metrics = 0 := by
      refine pyMax_eq_zero _ fun x hx => ?_
      obtain ⟨nd, hnd, rfl⟩ := List.mem_map.mp hx
      exact hz nd hnd
    refine ⟨hm, ?_⟩
    show (if 0 < maxPrs metrics then prsOf data / maxPrs metrics * 100 else 0) = 0
    rw [hm, if_neg (lt_irrefl 0)]
  · have hm : maxReviews metrics = 0 := by
      refine pyMax_eq_zero _ fun x hx => ?_
      obtain ⟨nd, hnd, rfl⟩ := List.mem_map.mp hx
      exact hz nd hnd
    refine ⟨hm, ?_⟩
    show (if 0 < maxReviews metrics then reviewsOf data / maxReviews metrics * 100 else 0) = 0
    rw [hm, if_neg (lt_irrefl 0)]

/-- Witness for C8 at a concrete input: two members, both all-zero. -/
theorem calculate_scores_zero_max_witness :
    (calculate_scores [("A", { items_completed := some 0 }), ("B", {})] []).lookup "A" =
        some { items_score := 0, prs_score := 0, reviews_score := 0, items_weighted := 0,
               prs_weighted := 0, reviews_weighted := 0, total := 0 } ∧
    ((∀ nd ∈ ([("A", { items_completed := some 0 }), ("B", {})] : RawMetrics),
        itemsOf nd.2 = 0) →
      maxItems [("A", { items_completed := some 0 }), ("B", {})] = 0 ∧ (0 : ℚ) = 0) ∧
    ((∀ nd ∈ ([("A", { items_completed := some 0 }), ("B", {})] : RawMetrics),
        prsOf nd.2 = 0) →
      maxPrs [("A", { items_completed := some 0 }), ("B", {})] = 0 ∧ (0 : ℚ) = 0) ∧
    ((∀ nd ∈ ([("A", { items_completed := some 0 }), ("B", {})] : RawMetrics),
        reviewsOf nd.2 = 0) →
      maxReviews [("A", { items_completed := some 0 }), ("B", {})] = 0 ∧ (0 : ℚ) = 0) := by
  have h : (calculate_scores [("A", { items_completed := some 0 }), ("B", {})] []).lookup "A" =
      some { items_score := 0, prs_score := 0, reviews_score := 0, items_weighted := 0,
             prs_weighted := 0, reviews_weighted := 0, total := 0 } := by
    norm_num +decide [calculate_scores, scoreMember, normalizeWeights, weightSum, getWeight,
      maxItems, maxPrs, maxReviews, pyMax, itemsOf, prsOf, reviewsOf, lookup_cons_eq_if, lt_abs]
  exact ⟨h, calculate_scores_zero_max _ _ _ _ h⟩

/-- C6 (amended): the weight normalization of `calculate_scores` returns
the weights unchanged when their sum is not positive or within 0.01 of
1.0, and otherwise divides every weight by the sum, after which the
weights sum to exactly 1; an already-normalized set passes through
unchanged. -/
theorem normalizeWeights_spec (w : Weights) :
    (weightSum w ≤ 0 → normalizeWeights w = w) ∧
    (|weightSum w - 1| ≤ 1/100 → normalizeWeights w = w) ∧
    (0 < weightSum w → 1/100 < |weightSum w - 1| →
      normalizeWeights w = (w.map fun kv => (kv.1, kv.2 / weightSum w)) ∧
      weightSum (normalizeWeights w) = 1) := by
  refine ⟨fun h => ?_, fun h => ?_, fun h1 h2 => ?_⟩
  · unfold normalizeWeights
    rw [if_neg]
    rintro ⟨hp, _⟩
    exact absurd h (not_le.mpr hp)
  · unfold normalizeWeights
    rw [if_neg]
    rintro ⟨_, ha⟩
    exact absurd h (not_le.mpr ha)
  · have heq : normalizeWeights w = w.map fun kv => (kv.1, kv.2 / weightSum w) := by
      unfold normalizeWeights
      rw [if_pos ⟨h1, h2⟩]
    refine ⟨heq, ?_⟩
    rw [heq, weightSum_map_div, div_self (ne_of_gt h1)]

/-- C6 fails as stated: the positive-sum weight set `{"a": 0.995}` is
inside the 0.01 tolerance band, passes through normalization unchanged,
and its normalized weights sum to 0.995, not 1.0. -/
theorem normalizeWeights_counterexample :
    0 < weightSum [("a", (199 : ℚ)/200)] ∧
    normalizeWeights [("a", (199 : ℚ)/200)] = [("a", (199 : ℚ)/200)] ∧
    weightSum (normalizeWeights [("a", (199 : ℚ)/200)]) ≠ 1 := by
  norm_num [normalizeWeights, weightSum, lt_abs]

/-- Witness for C6 at a concrete input: the weight set `{"a": 2}` has
sum 2, outside the tolerance band, so it is divided through and the
result sums to 1. -/
theorem normalizeWeights_spec_witness :
    0 < weightSum [("a", (2 : ℚ))] ∧ 1/100 < |weightSum [("a", (2 : ℚ))] - 1| ∧
    (normalizeWeights [("a", (2 : ℚ))] =
        ([("a", (2 : ℚ))].map fun kv => (kv.1, kv.2 / weightSum [("a", (2 : ℚ))])) ∧
      weightSum (normalizeWeights [("a", (2 : ℚ))]) = 1) := by
  have h1 : 0 < weightSum [("a", (2 : ℚ))] := by norm_num [weightSum]
  have h2 : 1/100 < |weightSum [("a", (2 : ℚ))] - 1| := by norm_num [weightSum, lt_abs]
  exact ⟨h1, h2, (normalizeWeights_spec _).2.2 h1 h2⟩

/-- C1 (amended): a member whose raw value for each scored counter equals
the team maximum for that counter receives `total = 100`, provided every
team maximum is positive and the three effective weights — each counter's
key looked up in the normalized weight set, falling back to the defaults
0.5 / 0.3 / 0.2 — sum to 1; every component score is then 100 as well (in
particular for a single member with all positive raw values). -/
theorem calculate_scores_max_member_total (metrics : RawMetrics) (weights : Weights)
    (name : String) (data : Metrics) (h : metrics.lookup name = some data)
    (hi : itemsOf data = maxItems metrics) (hp : prsOf data = maxPrs metrics)
    (hr : reviewsOf data = maxReviews metrics)
    (hip : 0 < maxItems metrics) (hpp : 0 < maxPrs metrics) (hrp : 0 < maxReviews metrics)
    (hw : getWeight (normalizeWeights weights) "items_completed" (1/2) +
          getWeight (normalizeWeights weights) "prs_authored" (3/10) +
          getWeight (normalizeWeights weights) "code_reviews" (1/5) = 1) :
    ∃ r, (calculate_scores metrics weights).lookup name = some r ∧
      r.items_score = 100 ∧ r.prs_score = 100 ∧ r.reviews_score = 100 ∧ r.total = 100 := by
  have hs1 : (if 0 < maxItems metrics then itemsOf data / maxItems metrics * 100 else 0)
      = 100 := by
    rw [if_pos hip, hi, div_self (ne_of_gt hip), one_mul]
  have hs2 : (if 0 < maxPrs metrics then prsOf data / maxPrs metrics * 100 else 0)
      = 100 := by
    rw [if_pos hpp, hp, div_self (ne_of_gt hpp), one_mul]
  have hs3 : (if 0 < maxReviews metrics then reviewsOf data / maxReviews metrics * 100 else 0)
      = 100 := by
    rw [if_pos hrp, hr, div_self (ne_of_gt hrp), one_mul]
  refine ⟨scoreMember (normalizeWeights weights) (maxItems metrics) (maxPrs metrics)
    (maxReviews metrics) data, ?_, hs1, hs2, hs3, ?_⟩
  · rw [calculate_scores_lookup, h, Option.map_some']
  · show (if 0 < maxItems metrics then itemsOf data / maxItems metrics * 100 else 0) *
        getWeight (normalizeWeights weights) "items_completed" (1/2) +
      (if 0 < maxPrs metrics then prsOf data / maxPrs metrics * 100 else 0) *
        getWeight (normalizeWeights weights) "prs_authored" (3/10) +
      (if 0 < maxReviews metrics then reviewsOf data / maxReviews metrics * 100 else 0) *
        getWeight (normalizeWeights weights) "code_reviews" (1/5) = 100
    rw [hs1, hs2, hs3]
    linear_combination 100 * hw

/-- C1 fails as stated: with the weight configuration
`{"items_completed": 0.2}` (normalized to `{"items_completed": 1.0}`, yet
leaving the 0.3 / 0.2 defaults of the other counters in force) the single
member holds every team maximum but totals 150, not 100. -/
theorem calculate_scores_max_member_total_counterexample :
    itemsOf ({ items_completed := some 1, prs_authored := some 1, code_reviews := some 1 } :
        Metrics) = maxItems
        [("A", { items_completed := some 1, prs_authored := some 1, code_reviews := some 1 })] ∧
    prsOf ({ items_completed := some 1, prs_authored := some 1, code_reviews := some 1 } :
        Metrics) = maxPrs
        [("A", { items_completed := some 1, prs_authored := some 1, code_reviews := some 1 })] ∧
    reviewsOf ({ items_completed := some 1, prs_authored := some 1, code_reviews := some 1 } :
        Metrics) = maxReviews
        [("A", { items_completed := some 1, prs_authored := some 1, code_reviews := some 1 })] ∧
    ((calculate_scores
        [("A", { items_completed := some 1, prs_authored := some 1, code_reviews := some 1 })]
        [("items_completed", 1/5)]).lookup "A").map ScoreRecord.total = some 150 ∧
    (150 : ℚ) ≠ 100 := by
  norm_num +decide [calculate_scores, scoreMember, normalizeWeights, weightSum, getWeight,
    maxItems, maxPrs, maxReviews, pyMax, itemsOf, prsOf, reviewsOf, lookup_cons_eq_if, lt_abs]

/-- Raw metrics for the C1 witness: one member with maximal values on
all counters. -/
def c1wMetrics : RawMetrics :=
  [("A", { items_completed := some 4, prs_authored := some 5, code_reviews := some 6 })]

/-- The member data of the C1 witness. -/
def c1wData : Metrics :=
  { items_completed := some 4, prs_authored := some 5, code_reviews := some 6 }

/-- Weights for the C1 witness: the spec's example
`{items: 1.0, prs: 0.6, reviews: 0.4}` with sum 2.0. -/
def c1wWeights : Weights :=
  [("items_completed", 1), ("prs_authored", 3/5), ("code_reviews", 2/5)]

/-- Witness for C1 at the spec's own example: weights summing to 2.0 and
a single member with maximal values on all counters. -/
theorem calculate_scores_max_member_total_witness :
    c1wMetrics.lookup "A" = some c1wData ∧
    itemsOf c1wData = maxItems c1wMetrics ∧
    prsOf c1wData = maxPrs c1wMetrics ∧
    reviewsOf c1wData = maxReviews c1wMetrics ∧
    0 < maxItems c1wMetrics ∧ 0 < maxPrs c1wMetrics ∧ 0 < maxReviews c1wMetrics ∧
    getWeight (normalizeWeights c1wWeights) "items_completed" (1/2) +
      getWeight (normalizeWeights c1wWeights) "prs_authored" (3/10) +
      getWeight (normalizeWeights c1wWeights) "code_reviews" (1/5) = 1 ∧
    ∃ r, (calculate_scores c1wMetrics c1wWeights).lookup "A" = some r ∧
      r.items_score = 100 ∧ r.prs_score = 100 ∧ r.reviews_score = 100 ∧ r.total = 100 := by
  have h : c1wMetrics.lookup "A" = some c1wData := by
    norm_num +decide [c1wMetrics, c1wData, lookup_cons_eq_if]
  have hi : itemsOf c1wData = maxItems c1wMetrics := by
    norm_num [c1wMetrics, c1wData, maxItems, pyMax, itemsOf]
  have hp : prsOf c1wData = maxPrs c1wMetrics := by
    norm_num [c1wMetrics, c1wData, maxPrs, pyMax, prsOf]
  have hr : reviewsOf c1wData = maxReviews c1wMetrics := by
    norm_num [c1wMetrics, c1wData, maxReviews, pyMax, reviewsOf]
  have hip : 0 < maxItems c1wMetrics := by norm_num [c1wMetrics, maxItems, pyMax, itemsOf]
  have hpp : 0 < maxPrs c1wMetrics := by norm_num [c1wMetrics, maxPrs, pyMax, prsOf]
  have hrp : 0 < maxReviews c1wMetrics := by norm_num [c1wMetrics, maxReviews, pyMax, reviewsOf]
  have hw : getWeight (normalizeWeights c1wWeights) "items_completed" (1/2) +
      getWeight (normalizeWeights c1wWeights) "prs_authored" (3/10) +
      getWeight (normalizeWeights c1wWeights) "code_reviews" (1/5) = 1 := by
    norm_num +decide [c1wWeights, normalizeWeights, weightSum, getWeight, lookup_cons_eq_if,
      lt_abs]
  exact ⟨h, hi, hp, hr, hip, hpp, hrp, hw,
    calculate_scores_max_member_total _ _ _ _ h hi hp hr hip hpp hrp hw⟩

/-- Looking a key up in a key-indexed map is a membership test. -/
theorem lookup_map_key {γ : Type} (f : String → γ) (names : List String) (a : String) :
    (names.map fun n => (n, f n)).lookup a = if a ∈ names then some (f a) else none := by
  induction names with
  | nil => simp
  | cons n rest ih =>
    by_cases hn : a = n
    · subst hn
      simp [lookup_cons_eq_if]
    · simp [lookup_cons_eq_if, hn, ih]

/-- C4: `compare_periods` reports `change = current - previous` and labels
the trend `"up"` exactly when `change > 0.5`, `"down"` exactly when
`change < -0.5`, and `"stable"` otherwise. -/
theorem compare_periods_trend (cur prev : List (String × ScoreRecord)) (name : String)
    (r : TrendRecord) (h : (compare_periods cur prev).lookup name = some r) :
    r.current = getTotal cur name ∧ r.previous = getTotal prev name ∧
    r.change = r.current - r.previous ∧
    r.trend = (if 1/2 < r.change then "up"
               else if r.change < -(1/2) then "down"
               else "stable") := by
  unfold compare_periods at h
  rw [lookup_map_key] at h
  by_cases hmem : name ∈ (cur.map Prod.fst ++ prev.map Prod.fst).dedup
  · rw [if_pos hmem] at h
    cases h
    exact ⟨rfl, rfl, rfl, rfl⟩
  · rw [if_neg hmem] at h
    cases h

/-- Witness for C4 at the spec's deadband example: current total 80.3
against previous total 80.0 is a 0.3 change, labelled `"stable"`. -/
theorem compare_periods_trend_witness :
    (compare_periods [("A", totalOnly (803/10))] [("A", totalOnly 80)]).lookup "A" =
        some { current := 803/10, previous := 80, change := 3/10, trend := "stable" } ∧
    ((803 : ℚ)/10 = getTotal [("A", totalOnly (803/10))] "A" ∧
     (80 : ℚ) = getTotal [("A", totalOnly 80)] "A" ∧
     (3 : ℚ)/10 = 803/10 - 80 ∧
     "stable" = (if (1 : ℚ)/2 < 3/10 then "up"
                 else if (3 : ℚ)/10 < -(1/2) then "down"
                 else "stable")) := by
  have h : (compare_periods [("A", totalOnly (803/10))] [("A", totalOnly 80)]).lookup "A" =
      some { current := 803/10, previous := 80, change := 3/10, trend := "stable" } := by
    norm_num +decide [compare_periods, trendFor, getTotal, totalOnly, lookup_cons_eq_if]
  exact ⟨h, compare_periods_trend _ _ _ _ h⟩

/-- C7: the key set of `compare_periods` is exactly the union of the two
input key sets; a member absent from one side gets total 0 there, so a
member only in the current period with total above 0.5 trends `"up"` and
a member only in the previous period with total above 0.5 trends
`"down"`. -/
theorem compare_periods_union (cur prev : List (String × ScoreRecord)) (name : String) :
    (name ∈ (compare_periods cur prev).map Prod.fst ↔
      name ∈ cur.map Prod.fst ∨ name ∈ prev.map Prod.fst) ∧
    ∀ r : TrendRecord, (compare_periods cur prev).lookup name = some r →
      (cur.lookup name = none → r.current = 0) ∧
      (prev.lookup name = none → r.previous = 0) ∧
      (prev.lookup name = none → 1/2 < r.current → r.trend = "up") ∧
      (cur.lookup name = none → 1/2 < r.previous → r.trend = "down") := by
  constructor
  · unfold compare_periods
    rw [List.map_map]
    have : (Prod.fst ∘ fun n => (n, trendFor cur prev n)) = id := rfl
    rw [this, List.map_id, List.mem_dedup, List.mem_append]
  · intro r h
    unfold compare_periods at h
    rw [lookup_map_key] at h
    by_cases hmem : name ∈ (cur.map Prod.fst ++ prev.map Prod.fst).dedup
    · rw [if_pos hmem] at h
      cases h
      refine ⟨fun hc => ?_, fun hp => ?_, fun hpn hcur => ?_, fun hcn hprev => ?_⟩
      · show getTotal cur name = 0
        simp [getTotal, hc]
      · show getTotal prev name = 0
        simp [getTotal, hp]
      · have hp0 : getTotal prev name = 0 := by simp [getTotal, hpn]
        have hcur2 : 1/2 < getTotal cur name := hcur
        show (if 1/2 < getTotal cur name - getTotal prev name then "up"
              else if getTotal cur name - getTotal prev name < -(1/2) then "down"
              else "stable") = "up"
        rw [hp0, sub_zero, if_pos hcur2]
      · have hc0 : getTotal cur name = 0 := by simp [getTotal, hcn]
        have hprev2 : 1/2 < getTotal prev name := hprev
        show (if 1/2 < getTotal cur name - getTotal prev name then "up"
              else if getTotal cur name - getTotal prev name < -(1/2) then "down"
              else "stable") = "down"
        rw [hc0, zero_sub, if_neg (by linarith), if_pos (by linarith)]
    · rw [if_neg hmem] at h
      cases h

/-- Witness for C7 at a concrete input: "A" only in the current period
with total 10, "B" only in the previous period with total 7. -/
theorem compare_periods_union_witness :
    ("A" ∈ (compare_periods [("A", totalOnly 10)] [("B", totalOnly 7)]).map Prod.fst ↔
      "A" ∈ ([("A", totalOnly 10)] : List (String × ScoreRecord)).map Prod.fst ∨
      "A" ∈ ([("B", totalOnly 7)] : List (String × ScoreRecord)).map Prod.fst) ∧
    (compare_periods [("A", totalOnly 10)] [("B", totalOnly 7)]).lookup "A" =
        some { current := 10, previous := 0, change := 10, trend := "up" } ∧
    ([("B", totalOnly 7)] : List (String × ScoreRecord)).lookup "A" = none ∧
    (1 : ℚ)/2 < 10 ∧
    TrendRecord.trend { current := 10, previous := 0, change := 10, trend := "up" } = "up" := by
  have h : (compare_periods [("A", totalOnly 10)] [("B", totalOnly 7)]).lookup "A" =
      some { current := 10, previous := 0, change := 10, trend := "up" } := by
    norm_num +decide [compare_periods, trendFor, getTotal, totalOnly, lookup_cons_eq_if]
  have hpn : ([("B", totalOnly 7)] : List (String × ScoreRecord)).lookup "A" = none := by
    norm_num +decide [lookup_cons_eq_if]
  have hgt : (1 : ℚ)/2 < 10 := by norm_num
  refine ⟨(compare_periods_union [("A", totalOnly 10)] [("B", totalOnly 7)] "A").1, h, hpn,
    hgt, ?_⟩
  exact ((compare_periods_union [("A", totalOnly 10)] [("B", totalOnly 7)] "A").2 _ h).2.2.1
    hpn hgt

/-- C5: `calculate_component_contributions` gives each member with a
positive total the percentage `weighted / total * 100` per counter, and
those three percentages sum to exactly 100; a member without positive
total gets all-zero percentages. -/
theorem contributions_spec (metrics : RawMetrics) (weights : Weights) (name : String)
    (r : ScoreRecord) (h : (calculate_scores metrics weights).lookup name = some r) :
    ∃ c, (calculate_component_contributions
        (calculate_scores metrics weights)).lookup name = some c ∧
      (0 < r.total →
        c.items_pct = r.items_weighted / r.total * 100 ∧
        c.prs_pct = r.prs_weighted / r.total * 100 ∧
        c.reviews_pct = r.reviews_weighted / r.total * 100 ∧
        c.items_pct + c.prs_pct + c.reviews_pct = 100) ∧
      (¬ 0 < r.total → c.items_pct = 0 ∧ c.prs_pct = 0 ∧ c.reviews_pct = 0) := by
  have htot := lookup_total_eq_sum metrics weights name r h
  refine ⟨contributionOf r, ?_, fun hpos => ?_, fun hneg => ?_⟩
  · unfold calculate_component_contributions
    rw [lookup_map_snd, h, Option.map_some']
  · have hc : contributionOf r =
        { items_pct := r.items_weighted / r.total * 100
          prs_pct := r.prs_weighted / r.total * 100
          reviews_pct := r.reviews_weighted / r.total * 100 } := by
      unfold contributionOf
      rw [if_pos hpos]
    rw [hc]
    refine ⟨rfl, rfl, rfl, ?_⟩
    show r.items_weighted / r.total * 100 + r.prs_weighted / r.total * 100 +
        r.reviews_weighted / r.total * 100 = 100
    have hsum : r.items_weighted / r.total * 100 + r.prs_weighted / r.total * 100 +
        r.reviews_weighted / r.total * 100 =
        (r.items_weighted + r.prs_weighted + r.reviews_weighted) / r.total * 100 := by
      ring
    rw [hsum, ← htot, div_self (ne_of_gt hpos), one_mul]
  · have hc : contributionOf r = { items_pct := 0, prs_pct := 0, reviews_pct := 0 } := by
      unfold contributionOf
      rw [if_neg hneg]
    rw [hc]
    exact ⟨rfl, rfl, rfl⟩

/-- Witness for C5 at a concrete input: one member with 2 items and 1 PR,
no configured weights; the total 80 splits 62.5 / 37.5 / 0. -/
theorem contributions_spec_witness :
    (calculate_scores [("A", { items_completed := some 2, prs_authored := some 1 })] []).lookup
        "A" = some { items_score := 100, prs_score := 100, reviews_score := 0,
                     items_weighted := 50, prs_weighted := 30, reviews_weighted := 0,
                     total := 80 } ∧
    ∃ c, (calculate_component_contributions
        (calculate_scores [("A", { items_completed := some 2, prs_authored := some 1 })]
          [])).lookup "A" = some c ∧
      ((0 : ℚ) < 80 →
        c.items_pct = (50 : ℚ) / 80 * 100 ∧
        c.prs_pct = (30 : ℚ) / 80 * 100 ∧
        c.reviews_pct = (0 : ℚ) / 80 * 100 ∧
        c.items_pct + c.prs_pct + c.reviews_pct = 100) ∧
      (¬ (0 : ℚ) < 80 → c.items_pct = 0 ∧ c.prs_pct = 0 ∧ c.reviews_pct = 0) := by
  have h : (calculate_scores [("A", { items_completed := some 2, prs_authored := some 1 })]
      []).lookup "A" = some { items_score := 100, prs_score := 100, reviews_score := 0,
                              items_weighted := 50, prs_weighted := 30, reviews_weighted := 0,
                              total := 80 } := by
    norm_num +decide [calculate_scores, scoreMember, normalizeWeights, weightSum, getWeight,
      maxItems, maxPrs, maxReviews, pyMax, itemsOf, prsOf, reviewsOf, lookup_cons_eq_if, lt_abs]
  exact ⟨h, contributions_spec _ _ _ _ h⟩

/-- `rank_scores` is the rank-assignment walk over the stable descending
sort, also for the empty input. -/
theorem rank_scores_eq (scores : List (String × ScoreRecord)) :
    rank_scores scores = rankLoop 0 1 none (List.insertionSort totalDesc scores) := by
  by_cases h : scores = []
  · subst h; rfl
  · unfold rank_scores
    rw [if_neg h]

/-- The first entry of a `rankLoop` output over a nonempty list. -/
theorem rankLoop_head (n : String) (s : ScoreRecord) (rest : List (String × ScoreRecord))
    (i r : ℕ) (p : Option ℚ) :
    (rankLoop i r p ((n, s) :: rest))[0]? = some ⟨nextRank i r p s.total, n, s⟩ := by
  simp [rankLoop]

/-- `rankLoop` keeps each entry's record at its position. -/
theorem rankLoop_get_record (l : List (String × ScoreRecord)) :
    ∀ (i r : ℕ) (p : Option ℚ) (k : ℕ),
      ((rankLoop i r p l)[k]?).map RankedEntry.record = (l[k]?).map Prod.snd := by
  induction l with
  | nil => intro i r p k; simp [rankLoop]
  | cons nd rest ih =>
    intro i r p k
    obtain ⟨n, s⟩ := nd
    match k with
    | 0 => simp [rankLoop]
    | k + 1 =>
      simp only [rankLoop, List.getElem?_cons_succ]
      exact ih _ _ _ k

/-- The rank at position `k + 1` of a `rankLoop` output: position `i₀+k+2`
on a strict drop of the total, the previous entry's rank otherwise. -/
theorem rankLoop_rank_succ (l : List (String × ScoreRecord)) :
    ∀ (i r : ℕ) (p : Option ℚ) (k : ℕ) (sk sk1 : String × ScoreRecord) (ek ek1 : RankedEntry),
      l[k]? = some sk → l[k + 1]? = some sk1 →
      (rankLoop i r p l)[k]? = some ek → (rankLoop i r p l)[k + 1]? = some ek1 →
      ek1.rank = if sk1.2.total < sk.2.total then i + k + 2 else ek.rank := by
  induction l with
  | nil =>
    intro i r p k sk sk1 ek ek1 h1 _ _ _
    simp at h1
  | cons nd rest ih =>
    intro i r p k sk sk1 ek ek1 h1 h2 h3 h4
    obtain ⟨n, s⟩ := nd
    match k with
    | 0 =>
      rw [List.getElem?_cons_zero] at h1
      cases h1
      rw [List.getElem?_cons_succ] at h2
      rw [rankLoop_head] at h3
      cases h3
      cases rest with
      | nil => simp at h2
      | cons nd2 rest2 =>
        obtain ⟨n2, s2⟩ := nd2
        rw [List.getElem?_cons_zero] at h2
        cases h2
        have h4' : (rankLoop (i + 1) (nextRank i r p s.total) (some s.total)
            ((n2, s2) :: rest2))[0]? = some ek1 := by
          simpa [rankLoop] using h4
        rw [rankLoop_head] at h4'
        cases h4'
        by_cases hlt : s2.total < s.total
        · rw [if_pos hlt]
          show nextRank (i + 1) (nextRank i r p s.total) (some s.total) s2.total = i + 0 + 2
          simp only [nextRank, if_pos hlt]
        · rw [if_neg hlt]
          show nextRank (i + 1) (nextRank i r p s.total) (some s.total) s2.total =
            nextRank i r p s.total
          simp only [nextRank, if_neg hlt]
    | k + 1 =>
      rw [List.getElem?_cons_succ] at h1 h2
      have h3' : (rankLoop (i + 1) (nextRank i r p s.total) (some s.total) rest)[k]? =
          some ek := by
        simpa [rankLoop] using h3
      have h4' : (rankLoop (i + 1) (nextRank i r p s.total) (some s.total) rest)[k + 1]? =
          some ek1 := by
        simpa [rankLoop] using h4
      have hstep := ih (i + 1) (nextRank i r p s.total) (some s.total) k sk sk1 ek ek1
        h1 h2 h3' h4'
      rw [hstep]
      by_cases hlt : sk1.2.total < sk.2.total
      · rw [if_pos hlt, if_pos hlt]
        omega
      · rw [if_neg hlt, if_neg hlt]

/-- An output entry of `rankLoop` carries the record of the source entry
at the same position. -/
theorem rankLoop_entry_src (l : List (String × ScoreRecord)) (k : ℕ) (e : RankedEntry)
    (h : (rankLoop 0 1 none l)[k]? = some e) :
    ∃ nd : String × ScoreRecord, l[k]? = some nd ∧ nd.2 = e.record := by
  have hrec := rankLoop_get_record l 0 1 none k
  rw [h] at hrec
  cases hl : l[k]? with
  | none =>
    rw [hl] at hrec
    simp at hrec
  | some nd =>
    rw [hl] at hrec
    simp only [Option.map_some'] at hrec
    exact ⟨nd, rfl, (Option.some.inj hrec).symm⟩

/-- Totals are weakly decreasing along a `rankLoop` walk over a list
sorted by total descending. -/
theorem rankLoop_sorted_le (l : List (String × ScoreRecord)) (hs : l.Sorted totalDesc)
    (a b : ℕ) (ea eb : RankedEntry) (hab : a ≤ b)
    (ha : (rankLoop 0 1 none l)[a]? = some ea) (hb : (rankLoop 0 1 none l)[b]? = some eb) :
    eb.record.total ≤ ea.record.total := by
  obtain ⟨na, hna, hra⟩ := rankLoop_entry_src l a ea ha
  obtain ⟨nb, hnb, hrb⟩ := rankLoop_entry_src l b eb hb
  rcases Nat.lt_or_ge a b with hlt | hge
  · obtain ⟨hla, hga⟩ := List.getElem?_eq_some.mp hna
    obtain ⟨hlb, hgb⟩ := List.getElem?_eq_some.mp hnb
    have hrel := List.pairwise_iff_getElem.mp hs a b hla hlb hlt
    rw [hga, hgb] at hrel
    rw [← hra, ← hrb]
    exact hrel
  · have hab2 : a = b := le_antisymm hab hge
    subst hab2
    rw [ha] at hb
    cases hb
    exact le_refl _

/-- Equal totals receive equal ranks along a `rankLoop` walk over a list
sorted by total descending. -/
theorem rankLoop_rank_eq_of_total_eq (l : List (String × ScoreRecord))
    (hs : l.Sorted totalDesc) :
    ∀ (d a : ℕ) (ea eb : RankedEntry),
      (rankLoop 0 1 none l)[a]? = some ea → (rankLoop 0 1 none l)[a + d]? = some eb →
      ea.record.total = eb.record.total → ea.rank = eb.rank := by
  intro d
  induction d with
  | zero =>
    intro a ea eb ha hb _
    rw [Nat.add_zero, ha] at hb
    cases hb
    rfl
  | succ d ihd =>
    intro a ea eb ha hb heq
    have hblt : a + d + 1 < (rankLoop 0 1 none l).length := (List.getElem?_eq_some.mp hb).1
    have hmlt : a + d < (rankLoop 0 1 none l).length := by omega
    obtain ⟨em, hm⟩ : ∃ em, (rankLoop 0 1 none l)[a + d]? = some em :=
      ⟨_, List.getElem?_eq_getElem hmlt⟩
    have h1 : em.record.total ≤ ea.record.total :=
      rankLoop_sorted_le l hs a (a + d) ea em (Nat.le_add_right a d) ha hm
    have h2 : eb.record.total ≤ em.record.total :=
      rankLoop_sorted_le l hs (a + d) (a + d + 1) em eb (by omega) hm hb
    have hem : ea.record.total = em.record.total :=
      le_antisymm (by rw [heq]; exact h2) h1
    have hr1 : ea.rank = em.rank := ihd a ea em ha hm hem
    obtain ⟨sk, hsk, hsk2⟩ := rankLoop_entry_src l (a + d) em hm
    obtain ⟨sk1, hsk1, hsk12⟩ := rankLoop_entry_src l (a + d + 1) eb hb
    have hstep := rankLoop_rank_succ l 0 1 none (a + d) sk sk1 em eb hsk hsk1 hm hb
    have hnlt : ¬ sk1.2.total < sk.2.total := by
      intro hlt
      rw [hsk12, hsk2, ← heq, hem] at hlt
      exact lt_irrefl _ hlt
    rw [if_neg hnlt] at hstep
    rw [hr1, ← hstep]

/-- The first entry of a `rankLoop` walk started with rank 1 and no
previous total has rank 1. -/
theorem rankLoop_first_rank (l : List (String × ScoreRecord)) (e : RankedEntry)
    (h : (rankLoop 0 1 none l)[0]? = some e) : e.rank = 1 := by
  cases l with
  | nil => simp [rankLoop] at h
  | cons nd rest =>
    obtain ⟨n, s⟩ := nd
    rw [rankLoop_head] at h
    cases h
    rfl

/-- C3: `rank_scores` sorts the members by total descending and assigns
competition ranks: empty input gives the empty list, the first entry has
rank 1, totals are weakly decreasing along the output, members with equal
totals share a rank, and an entry whose total strictly drops below its
predecessor at 0-based position `i + 1` gets rank `i + 2`. -/
theorem rank_scores_spec (scores : List (String × ScoreRecord)) (i j : ℕ)
    (ei ej : RankedEntry) (hij : i ≤ j)
    (hi : (rank_scores scores)[i]? = some ei) (hj : (rank_scores scores)[j]? = some ej) :
    rank_scores [] = [] ∧
    (∀ e0 : RankedEntry, (rank_scores scores)[0]? = some e0 → e0.rank = 1) ∧
    ej.record.total ≤ ei.record.total ∧
    (ei.record.total = ej.record.total → ei.rank = ej.rank) ∧
    (j = i + 1 → ej.record.total < ei.record.total → ej.rank = i + 2) := by
  have hsort : (List.insertionSort totalDesc scores).Sorted totalDesc :=
    List.sorted_insertionSort totalDesc scores
  rw [rank_scores_eq] at hi hj
  refine ⟨rfl, ?_, ?_, ?_, ?_⟩
  · intro e0 h0
    rw [rank_scores_eq] at h0
    exact rankLoop_first_rank _ e0 h0
  · exact rankLoop_sorted_le _ hsort i j ei ej hij hi hj
  · intro heq
    refine rankLoop_rank_eq_of_total_eq _ hsort (j - i) i ei ej hi ?_ heq
    rw [show i + (j - i) = j from by omega]
    exact hj
  · intro hj1 hlt
    subst hj1
    obtain ⟨sk, hsk, hsk2⟩ := rankLoop_entry_src _ i ei hi
    obtain ⟨sk1, hsk1, hsk12⟩ := rankLoop_entry_src _ (i + 1) ej hj
    have hstep := rankLoop_rank_succ _ 0 1 none i sk sk1 ei ej hsk hsk1 hi hj
    have hlt2 : sk1.2.total < sk.2.total := by
      rw [hsk2, hsk12]
      exact hlt
    rw [hstep, if_pos hlt2]
    omega

/-- Witness for C3 at a concrete input: three members tied at total 100
and one member at 50; the fourth entry gets rank 4, not rank 2. -/
theorem rank_scores_spec_witness :
    (2 : ℕ) ≤ 3 ∧
    (rank_scores [("A", totalOnly 100), ("B", totalOnly 100), ("C", totalOnly 100),
        ("D", totalOnly 50)])[2]? = some ⟨1, "C", totalOnly 100⟩ ∧
    (rank_scores [("A", totalOnly 100), ("B", totalOnly 100), ("C", totalOnly 100),
        ("D", totalOnly 50)])[3]? = some ⟨4, "D", totalOnly 50⟩ ∧
    (rank_scores [] = [] ∧
     (∀ e0 : RankedEntry, (rank_scores [("A", totalOnly 100), ("B", totalOnly 100),
         ("C", totalOnly 100), ("D", totalOnly 50)])[0]? = some e0 → e0.rank = 1) ∧
     (totalOnly 50).total ≤ (totalOnly 100).total ∧
     ((totalOnly 100).total = (totalOnly 50).total →
       RankedEntry.rank ⟨1, "C", totalOnly 100⟩ = RankedEntry.rank ⟨4, "D", totalOnly 50⟩) ∧
     ((3 : ℕ) = 2 + 1 → (totalOnly 50).total < (totalOnly 100).total →
       RankedEntry.rank ⟨4, "D", totalOnly 50⟩ = 2 + 2)) := by
  have h2 : (rank_scores [("A", totalOnly 100), ("B", totalOnly 100), ("C", totalOnly 100),
      ("D", totalOnly 50)])[2]? = some ⟨1, "C", totalOnly 100⟩ := by
    norm_num +decide [rank_scores, rankLoop, nextRank, List.insertionSort, List.orderedInsert,
      totalDesc, totalOnly]
  have h3 : (rank_scores [("A", totalOnly 100), ("B", totalOnly 100), ("C", totalOnly 100),
      ("D", totalOnly 50)])[3]? = some ⟨4, "D", totalOnly 50⟩ := by
    norm_num +decide [rank_scores, rankLoop, nextRank, List.insertionSort, List.orderedInsert,
      totalDesc, totalOnly]
  exact ⟨by norm_num, h2, h3,
    rank_scores_spec _ 2 3 ⟨1, "C", totalOnly 100⟩ ⟨4, "D", totalOnly 50⟩ (by norm_num) h2 h3⟩

/-! ## Dynamically-typed model for the input-shape error behaviour

`calculate_scores` performs no input validation: a non-numeric raw counter
value flows into `max`, the `> 0` guard, or the arithmetic, where Python
raises a `TypeError`.  To settle the error-handling claim the engine is
re-embedded over runtime values that may be numbers or strings, with the
operators returning `Except`.  Python's `TypeError` payloads name the
operator and the operand types only — never a member or counter — which
the `PyErr` type mirrors. -/

/-- A Python runtime value reaching the scoring engine: a number (int and
float are merged into `ℚ`) or a malformed string. -/
inductive PyVal where
  | num (q : ℚ)
  | str (s : String)
deriving Repr, DecidableEq

/-- Python's runtime type name of a value (ints and floats merged). -/
def PyVal.typeName : PyVal → String
  | num _ => "number"
  | str _ => "str"

/-- Whether a runtime value is numeric. -/
def PyVal.isNum : PyVal → Bool
  | num _ => true
  | str _ => false

/-- A Python runtime error.  A `typeError` carries the operator and the
two operand type names, exactly the data of the message
`TypeError: '>' not supported between instances of 'str' and 'int'`. -/
inductive PyErr where
  | typeError (op : String) (t1 t2 : String)
  | zeroDivisionError
deriving Repr, DecidableEq

/-- Python `x > y`: defined within numbers and within strings, a
`TypeError` across kinds. -/
def pyGt : PyVal → PyVal → Except PyErr Bool
  | .num a, .num b => .ok (decide (b < a))
  | .str a, .str b => .ok (decide (b < a))
  | a, b => .error (.typeError ">" a.typeName b.typeName)

/-- Python `x / y` as used by the engine (float contexts): defined on
numbers, `ZeroDivisionError` on a zero divisor, `TypeError` otherwise. -/
def pyDiv : PyVal → PyVal → Except PyErr PyVal
  | .num a, .num b => if b = 0 then .error .zeroDivisionError else .ok (.num (a / b))
  | a, b => .error (.typeError "/" a.typeName b.typeName)

/-- Python `x * y` as used by the engine (float operands): defined on
numbers, `TypeError` otherwise. -/
def pyMul : PyVal → PyVal → Except PyErr PyVal
  | .num a, .num b => .ok (.num (a * b))
  | a, b => .error (.typeError "*" a.typeName b.typeName)

/-- Python `x + y` as used by the engine (float operands): defined on
numbers, `TypeError` otherwise. -/
def pyAdd : PyVal → PyVal → Except PyErr PyVal
  | .num a, .num b => .ok (.num (a + b))
  | a, b => .error (.typeError "+" a.typeName b.typeName)

/-- One step of Python's `max` loop: keep `y` when `y > acc`. -/
def maxStepD (acc y : PyVal) : Except PyErr PyVal := do
  let b ← pyGt y acc
  pure (if b then y else acc)

/-- Python `max(iterable, default=0)` over runtime values: `0` on the
empty iterable, otherwise the running `item > best` loop. -/
def pyMaxD : List PyVal → Except PyErr PyVal
  | [] => .ok (.num 0)
  | x :: xs => xs.foldlM maxStepD x

/-- Per-member raw counters carrying runtime values. -/
structure DynMetrics where
  items_completed : Option PyVal := none
  prs_authored : Option PyVal := none
  code_reviews : Option PyVal := none
deriving Repr, DecidableEq

/-- `data.get("items_completed", 0)` over runtime values. -/
def itemsOfD (m : DynMetrics) : PyVal := m.items_completed.getD (.num 0)

/-- `data.get("prs_authored", 0)` over runtime values. -/
def prsOfD (m : DynMetrics) : PyVal := m.prs_authored.getD (.num 0)

/-- `data.get("code_reviews", 0)` over runtime values. -/
def reviewsOfD (m : DynMetrics) : PyVal := m.code_reviews.getD (.num 0)

/-- One member's score dictionary over runtime values. -/
structure DynScoreRecord where
  items_score : PyVal
  prs_score : PyVal
  reviews_score : PyVal
  items_weighted : PyVal
  prs_weighted : PyVal
  reviews_weighted : PyVal
  total : PyVal
deriving Repr, DecidableEq

/-- `(raw / max * 100) if max > 0 else 0.0` over runtime values: the
guard is evaluated first, then the division and scaling. -/
def scoreValD (raw maxv : PyVal) : Except PyErr PyVal := do
  let b ← pyGt maxv (.num 0)
  if b then
    let q ← pyDiv raw maxv
    pyMul q (.num 100)
  else
    pure (.num 0)

/-- The member-scoring loop body over runtime values; the configured
weights themselves are numeric, as in the configuration contract. -/
def scoreMemberD (weights : Weights) (mi mp mr : PyVal) (data : DynMetrics) :
    Except PyErr DynScoreRecord := do
  let items_score ← scoreValD (itemsOfD data) mi
  let prs_score ← scoreValD (prsOfD data) mp
  let reviews_score ← scoreValD (reviewsOfD data) mr
  let items_weighted ← pyMul items_score (.num (getWeight weights "items_completed" (1/2)))
  let prs_weighted ← pyMul prs_score (.num (getWeight weights "prs_authored" (3/10)))
  let reviews_weighted ← pyMul reviews_score (.num (getWeight weights "code_reviews" (1/5)))
  let t1 ← pyAdd items_weighted prs_weighted
  let total ← pyAdd t1 reviews_weighted
  pure ⟨items_score, prs_score, reviews_score, items_weighted, prs_weighted,
    reviews_weighted, total⟩

/-- `calculate_scores` over runtime values: the three team maxima are
computed first, then every member is scored in order; the first runtime
error aborts the call, as an uncaught Python exception would. -/
def calculate_scoresD (metrics : List (String × DynMetrics)) (weights : Weights) :
    Except PyErr (List (String × DynScoreRecord)) :=
  if metrics = [] then .ok []
  else do
    let w := normalizeWeights weights
    let mi ← pyMaxD (metrics.map fun nm => itemsOfD nm.2)
    let mp ← pyMaxD (metrics.map fun nm => prsOfD nm.2)
    let mr ← pyMaxD (metrics.map fun nm => reviewsOfD nm.2)
    metrics.mapM fun nd => do
      let r ← scoreMemberD w mi mp mr nd.2
      pure (nd.1, r)

/-- Bind on a successful `Except` applies the continuation. -/
theorem except_bind_ok {α β : Type} (a : α) (f : α → Except PyErr β) :
    (Except.ok a >>= f) = f a := rfl

/-- Bind on a failed `Except` propagates the error. -/
theorem except_bind_err {α β : Type} (e : PyErr) (f : α → Except PyErr β) :
    ((Except.error e : Except PyErr α) >>= f) = Except.error e := rfl

/-- `pure` into `Except` is `ok`. -/
theorem except_pure_eq {α : Type} (a : α) : (pure a : Except PyErr α) = Except.ok a := rfl

/-- A numeric value is some `num`. -/
theorem isNum_exists (v : PyVal) (h : v.isNum = true) : ∃ q, v = .num q := by
  cases v with
  | num q => exact ⟨q, rfl⟩
  | str s => simp [PyVal.isNum] at h

/-- A comparison that succeeds had operands of one kind. -/
theorem pyGt_ok_kind (a b : PyVal) (x : Bool) (h : pyGt a b = .ok x) :
    a.isNum = b.isNum := by
  cases a <;> cases b <;> simp_all [pyGt, PyVal.isNum]

/-- A successful `max` step keeps the accumulator's kind, and its element
had that kind. -/
theorem maxStepD_ok_kind (acc y v : PyVal) (h : maxStepD acc y = .ok v) :
    v.isNum = acc.isNum ∧ y.isNum = acc.isNum := by
  unfold maxStepD at h
  cases hg : pyGt y acc with
  | error e =>
    rw [hg, except_bind_err] at h
    cases h
  | ok b =>
    rw [hg, except_bind_ok, except_pure_eq] at h
    cases h
    have hk := pyGt_ok_kind y acc b hg
    cases b
    · exact ⟨rfl, hk⟩
    · exact ⟨by simpa using hk, hk⟩

/-- A successful `max` fold keeps the accumulator's kind throughout. -/
theorem foldlM_maxStep_kind (xs : List PyVal) :
    ∀ (acc v : PyVal), xs.foldlM maxStepD acc = .ok v →
      v.isNum = acc.isNum ∧ ∀ y ∈ xs, y.isNum = acc.isNum := by
  induction xs with
  | nil =>
    intro acc v h
    rw [List.foldlM_nil, except_pure_eq] at h
    cases h
    exact ⟨rfl, by simp⟩
  | cons y ys ih =>
    intro acc v h
    rw [List.foldlM_cons] at h
    cases hs : maxStepD acc y with
    | error e =>
      rw [hs, except_bind_err] at h
      cases h
    | ok acc2 =>
      rw [hs, except_bind_ok] at h
      obtain ⟨h1, h2⟩ := maxStepD_ok_kind acc y acc2 hs
      obtain ⟨h3, h4⟩ := ih acc2 v h
      refine ⟨h3.trans h1, ?_⟩
      intro z hz
      rcases List.mem_cons.mp hz with rfl | hz2
      · exact h2
      · exact (h4 z hz2).trans h1

/-- Every element of a column whose `max` succeeded has the kind of the
maximum. -/
theorem pyMaxD_ok_kind (l : List PyVal) (v : PyVal) (h : pyMaxD l = .ok v) :
    ∀ y ∈ l, y.isNum = v.isNum := by
  cases l with
  | nil =>
    intro y hy
    cases hy
  | cons x xs =>
    unfold pyMaxD at h
    obtain ⟨h1, h2⟩ := foldlM_maxStep_kind xs x v h
    intro y hy
    rcases List.mem_cons.mp hy with rfl | hy2
    · exact h1.symm
    · exact (h2 y hy2).trans h1.symm

/-- A `max` fold over an all-numeric column succeeds with a number. -/
theorem foldlM_maxStep_ok (xs : List PyVal) :
    ∀ acc : ℚ, (∀ y ∈ xs, y.isNum = true) →
      ∃ q : ℚ, xs.foldlM maxStepD (.num acc) = .ok (.num q) := by
  induction xs with
  | nil =>
    intro acc _
    exact ⟨acc, by rw [List.foldlM_nil]; rfl⟩
  | cons y ys ih =>
    intro acc h
    obtain ⟨qy, rfl⟩ := isNum_exists y (h y (List.mem_cons_self y ys))
    have hstep : maxStepD (.num acc) (.num qy) = .ok (.num (if acc < qy then qy else acc)) := by
      unfold maxStepD
      rw [show pyGt (.num qy) (.num acc) = .ok (decide (acc < qy)) from rfl, except_bind_ok]
      by_cases hc : acc < qy
      · simp [hc, except_pure_eq]
      · simp [hc, except_pure_eq]
    obtain ⟨q, hq⟩ := ih (if acc < qy then qy else acc)
      fun z hz => h z (List.mem_cons_of_mem _ hz)
    exact ⟨q, by rw [List.foldlM_cons, hstep, except_bind_ok, hq]⟩

/-- `pyMaxD` over an all-numeric column succeeds with a number. -/
theorem pyMaxD_nums (l : List PyVal) (h : ∀ v ∈ l, v.isNum = true) :
    ∃ q : ℚ, pyMaxD l = .ok (.num q) := by
  cases l with
  | nil => exact ⟨0, rfl⟩
  | cons x xs =>
    obtain ⟨qx, rfl⟩ := isNum_exists x (h x (List.mem_cons_self x xs))
    exact foldlM_maxStep_ok xs qx fun z hz => h z (List.mem_cons_of_mem _ hz)

/-- Scaling a number by a numeric maximum succeeds with a number. -/
theorem scoreValD_num (a b : ℚ) : ∃ q : ℚ, scoreValD (.num a) (.num b) = .ok (.num q) := by
  unfold scoreValD
  by_cases hb : (0 : ℚ) < b
  · refine ⟨a / b * 100, ?_⟩
    rw [show pyGt (.num b) (.num 0) = .ok true by simp [pyGt, hb], except_bind_ok]
    rw [if_pos rfl]
    rw [show pyDiv (.num a) (.num b) = .ok (.num (a / b)) by simp [pyDiv, ne_of_gt hb],
      except_bind_ok]
    rfl
  · refine ⟨0, ?_⟩
    rw [show pyGt (.num b) (.num 0) = .ok false by simp [pyGt, hb], except_bind_ok]
    rfl

/-- Scaling by a non-numeric maximum fails at the `> 0` guard. -/
theorem scoreValD_err_str_max (raw v : PyVal) (hv : v.isNum = false) :
    ∃ e, scoreValD raw v = .error e := by
  cases v with
  | num q => simp [PyVal.isNum] at hv
  | str s =>
    refine ⟨.typeError ">" "str" "number", ?_⟩
    unfold scoreValD
    rw [show pyGt (.str s) (.num 0) =
        .error (.typeError ">" "str" "number") from rfl, except_bind_err]

/-- A member with numeric counters scores without error under numeric
maxima. -/
theorem scoreMemberD_ok (w : Weights) (qi qp qr : ℚ) (d : DynMetrics)
    (hdi : ∃ a, itemsOfD d = .num a) (hdp : ∃ a, prsOfD d = .num a)
    (hdr : ∃ a, reviewsOfD d = .num a) :
    ∃ r, scoreMemberD w (.num qi) (.num qp) (.num qr) d = .ok r := by
  obtain ⟨a1, h1⟩ := hdi
  obtain ⟨a2, h2⟩ := hdp
  obtain ⟨a3, h3⟩ := hdr
  obtain ⟨s1, hs1⟩ := scoreValD_num a1 qi
  obtain ⟨s2, hs2⟩ := scoreValD_num a2 qp
  obtain ⟨s3, hs3⟩ := scoreValD_num a3 qr
  refine ⟨⟨.num s1, .num s2, .num s3,
    .num (s1 * getWeight w "items_completed" (1/2)),
    .num (s2 * getWeight w "prs_authored" (3/10)),
    .num (s3 * getWeight w "code_reviews" (1/5)),
    .num (s1 * getWeight w "items_completed" (1/2) + s2 * getWeight w "prs_authored" (3/10) +
      s3 * getWeight w "code_reviews" (1/5))⟩, ?_⟩
  unfold scoreMemberD
  rw [h1, h2, h3, hs1, except_bind_ok, hs2, except_bind_ok, hs3, except_bind_ok]
  rfl

/-- A non-numeric items maximum aborts the member computation. -/
theorem scoreMemberD_err_items (w : Weights) (mi mp mr : PyVal) (d : DynMetrics)
    (hmi : mi.isNum = false) :
    ∃ e, scoreMemberD w mi mp mr d = .error e := by
  obtain ⟨e, he⟩ := scoreValD_err_str_max (itemsOfD d) mi hmi
  exact ⟨e, by unfold scoreMemberD; rw [he, except_bind_err]⟩

/-- A non-numeric PRs maximum aborts the member computation after a
numeric items column. -/
theorem scoreMemberD_err_prs (w : Weights) (qi : ℚ) (mp mr : PyVal) (d : DynMetrics)
    (hdi : ∃ a, itemsOfD d = .num a) (hmp : mp.isNum = false) :
    ∃ e, scoreMemberD w (.num qi) mp mr d = .error e := by
  obtain ⟨a1, h1⟩ := hdi
  obtain ⟨s1, hs1⟩ := scoreValD_num a1 qi
  obtain ⟨e, he⟩ := scoreValD_err_str_max (prsOfD d) mp hmp
  exact ⟨e, by
    unfold scoreMemberD
    rw [h1, hs1, except_bind_ok, he, except_bind_err]⟩

/-- A non-numeric reviews maximum aborts the member computation after
numeric items and PRs columns. -/
theorem scoreMemberD_err_reviews (w : Weights) (qi qp : ℚ) (mr : PyVal) (d : DynMetrics)
    (hdi : ∃ a, itemsOfD d = .num a) (hdp : ∃ a, prsOfD d = .num a)
    (hmr : mr.isNum = false) :
    ∃ e, scoreMemberD w (.num qi) (.num qp) mr d = .error e := by
  obtain ⟨a1, h1⟩ := hdi
  obtain ⟨a2, h2⟩ := hdp
  obtain ⟨s1, hs1⟩ := scoreValD_num a1 qi
  obtain ⟨s2, hs2⟩ := scoreValD_num a2 qp
  obtain ⟨e, he⟩ := scoreValD_err_str_max (reviewsOfD d) mr hmr
  exact ⟨e, by
    unfold scoreMemberD
    rw [h1, h2, hs1, except_bind_ok, hs2, except_bind_ok, he, except_bind_err]⟩

/-- `mapM` over `Except` succeeds when every element does. -/
theorem mapM_ok_of_forall {α β : Type} (f : α → Except PyErr β) (l : List α)
    (h : ∀ a ∈ l, ∃ b, f a = .ok b) : ∃ bs, l.mapM f = .ok bs := by
  induction l with
  | nil => exact ⟨[], by rw [List.mapM_nil]; rfl⟩
  | cons a as ih =>
    obtain ⟨b, hb⟩ := h a (List.mem_cons_self a as)
    obtain ⟨bs, hbs⟩ := ih fun x hx => h x (List.mem_cons_of_mem a hx)
    exact ⟨b :: bs, by rw [List.mapM_cons, hb, except_bind_ok, hbs, except_bind_ok]; rfl⟩

/-- `mapM` over `Except` fails when the first element does. -/
theorem mapM_err_head {α β : Type} (f : α → Except PyErr β) (a : α) (l : List α) (e : PyErr)
    (h : f a = .error e) : (a :: l).mapM f = .error e := by
  rw [List.mapM_cons, h, except_bind_err]

/-- C9 (amended): `calculate_scores` fails fast — a member with a
non-numeric (string) raw counter value always makes the call raise a
runtime error, never silently coercing the value to zero — and every
well-typed input succeeds without error; but the error raised is a
generic operand-type `TypeError` that does not identify the offending
member or counter. -/
theorem calculate_scoresD_spec (metrics : List (String × DynMetrics)) (weights : Weights) :
    ((∀ nd ∈ metrics, (itemsOfD nd.2).isNum = true ∧ (prsOfD nd.2).isNum = true ∧
        (reviewsOfD nd.2).isNum = true) →
      ∃ out, calculate_scoresD metrics weights = .ok out) ∧
    ((∃ nd ∈ metrics, (itemsOfD nd.2).isNum = false ∨ (prsOfD nd.2).isNum = false ∨
        (reviewsOfD nd.2).isNum = false) →
      ∃ e, calculate_scoresD metrics weights = .error e) := by
  constructor
  · intro hall
    by_cases hm : metrics = []
    · subst hm
      exact ⟨[], rfl⟩
    · have hi : ∀ v ∈ metrics.map (fun nm => itemsOfD nm.2), v.isNum = true := by
        intro v hv
        obtain ⟨nd, hnd, rfl⟩ := List.mem_map.mp hv
        exact (hall nd hnd).1
      have hp : ∀ v ∈ metrics.map (fun nm => prsOfD nm.2), v.isNum = true := by
        intro v hv
        obtain ⟨nd, hnd, rfl⟩ := List.mem_map.mp hv
        exact (hall nd hnd).2.1
      have hr : ∀ v ∈ metrics.map (fun nm => reviewsOfD nm.2), v.isNum = true := by
        intro v hv
        obtain ⟨nd, hnd, rfl⟩ := List.mem_map.mp hv
        exact (hall nd hnd).2.2
      obtain ⟨qi, hqi⟩ := pyMaxD_nums _ hi
      obtain ⟨qp, hqp⟩ := pyMaxD_nums _ hp
      obtain ⟨qr, hqr⟩ := pyMaxD_nums _ hr
      have hmem : ∀ nd ∈ metrics, ∃ b, (do
          let r ← scoreMemberD (normalizeWeights weights) (.num qi) (.num qp) (.num qr) nd.2
          pure (nd.1, r) : Except PyErr (String × DynScoreRecord)) = .ok b := by
        intro nd hnd
        obtain ⟨h1, h2, h3⟩ := hall nd hnd
        obtain ⟨r, hr2⟩ := scoreMemberD_ok (normalizeWeights weights) qi qp qr nd.2
          (isNum_exists _ h1) (isNum_exists _ h2) (isNum_exists _ h3)
        exact ⟨(nd.1, r), by rw [hr2, except_bind_ok]; rfl⟩
      obtain ⟨bs, hbs⟩ := mapM_ok_of_forall _ metrics hmem
      refine ⟨bs, ?_⟩
      unfold calculate_scoresD
      rw [if_neg hm, hqi, except_bind_ok, hqp, except_bind_ok, hqr, except_bind_ok, hbs]
  · rintro ⟨nd0, hnd0, hcase⟩
    by_cases hm : metrics = []
    · subst hm
      cases hnd0
    · cases hE1 : pyMaxD (metrics.map fun nm => itemsOfD nm.2) with
      | error e =>
        refine ⟨e, ?_⟩
        unfold calculate_scoresD
        rw [if_neg hm, hE1, except_bind_err]
      | ok mi =>
        cases hE2 : pyMaxD (metrics.map fun nm => prsOfD nm.2) with
        | error e =>
          refine ⟨e, ?_⟩
          unfold calculate_scoresD
          rw [if_neg hm, hE1, except_bind_ok, hE2, except_bind_err]
        | ok mp =>
          cases hE3 : pyMaxD (metrics.map fun nm => reviewsOfD nm.2) with
          | error e =>
            refine ⟨e, ?_⟩
            unfold calculate_scoresD
            rw [if_neg hm, hE1, except_bind_ok, hE2, except_bind_ok, hE3, except_bind_err]
          | ok mr =>
            obtain ⟨hd, tl, rfl⟩ : ∃ hd tl, metrics = hd :: tl := by
              cases metrics with
              | nil => exact absurd rfl hm
              | cons hd tl => exact ⟨hd, tl, rfl⟩
            have hmapM : ∀ e : PyErr,
                scoreMemberD (normalizeWeights weights) mi mp mr hd.2 = .error e →
                ∃ e2, calculate_scoresD (hd :: tl) weights = .error e2 := by
              intro e he
              refine ⟨e, ?_⟩
              unfold calculate_scoresD
              rw [if_neg hm, hE1, except_bind_ok, hE2, except_bind_ok, hE3, except_bind_ok]
              exact mapM_err_head _ hd tl e (by rw [he, except_bind_err])
            cases hmi : mi.isNum with
            | false =>
              obtain ⟨e, he⟩ :=
                scoreMemberD_err_items (normalizeWeights weights) mi mp mr hd.2 hmi
              exact hmapM e he
            | true =>
              obtain ⟨qi, rfl⟩ := isNum_exists mi hmi
              have hdi : ∃ a, itemsOfD hd.2 = .num a := by
                refine isNum_exists _ ?_
                have := pyMaxD_ok_kind _ _ hE1 (itemsOfD hd.2)
                  (List.mem_map.mpr ⟨hd, List.mem_cons_self hd tl, rfl⟩)
                rw [this, hmi]
              cases hmp : mp.isNum with
              | false =>
                obtain ⟨e, he⟩ :=
                  scoreMemberD_err_prs (normalizeWeights weights) qi mp mr hd.2 hdi hmp
                exact hmapM e he
              | true =>
                obtain ⟨qp, rfl⟩ := isNum_exists mp hmp
                have hdp : ∃ a, prsOfD hd.2 = .num a := by
                  refine isNum_exists _ ?_
                  have := pyMaxD_ok_kind _ _ hE2 (prsOfD hd.2)
                    (List.mem_map.mpr ⟨hd, List.mem_cons_self hd tl, rfl⟩)
                  rw [this, hmp]
                cases hmr : mr.isNum with
                | false =>
                  obtain ⟨e, he⟩ :=
                    scoreMemberD_err_reviews (normalizeWeights weights) qi qp mr hd.2
                      hdi hdp hmr
                  exact hmapM e he
                | true =>
                  exfalso
                  rcases hcase with hc | hc | hc
                  · have := pyMaxD_ok_kind _ _ hE1 (itemsOfD nd0.2)
                      (List.mem_map.mpr ⟨nd0, hnd0, rfl⟩)
                    rw [hc, hmi] at this
                    cases this
                  · have := pyMaxD_ok_kind _ _ hE2 (prsOfD nd0.2)
                      (List.mem_map.mpr ⟨nd0, hnd0, rfl⟩)
                    rw [hc, hmp] at this
                    cases this
                  · have := pyMaxD_ok_kind _ _ hE3 (reviewsOfD nd0.2)
                      (List.mem_map.mpr ⟨nd0, hnd0, rfl⟩)
                    rw [hc, hmr] at this
                    cases this

/-- C9 fails as stated: a string `items_completed` of member "A" and a
string `prs_authored` of member "B" (in a different run) produce the
very same runtime error value — `TypeError` for `>` on `number` and
`str` — so the error identifies neither the offending member nor the
offending counter. -/
theorem calculate_scoresD_counterexample :
    calculate_scoresD [("A", { items_completed := some (.str "oops") }),
        ("B", { items_completed := some (.num 3) })] [] =
      .error (.typeError ">" "number" "str") ∧
    calculate_scoresD [("B", { prs_authored := some (.str "zap") }),
        ("C", { prs_authored := some (.num 2) })] [] =
      .error (.typeError ">" "number" "str") :=
  ⟨rfl, rfl⟩

/-- Witness for C9 at a concrete malformed input: member "A" carries the
string `"oops"` as its items counter and the call errors. -/
theorem calculate_scoresD_spec_witness :
    (∃ nd ∈ ([("A", { items_completed := some (.str "oops") }),
        ("B", { items_completed := some (.num 3) })] : List (String × DynMetrics)),
      (itemsOfD nd.2).isNum = false ∨ (prsOfD nd.2).isNum = false ∨
        (reviewsOfD nd.2).isNum = false) ∧
    ∃ e, calculate_scoresD [("A", { items_completed := some (.str "oops") }),
        ("B", { items_completed := some (.num 3) })] [] = .error e := by
  have hx : ∃ nd ∈ ([("A", { items_completed := some (.str "oops") }),
      ("B", { items_completed := some (.num 3) })] : List (String × DynMetrics)),
      (itemsOfD nd.2).isNum = false ∨ (prsOfD nd.2).isNum = false ∨
        (reviewsOfD nd.2).isNum = false :=
    ⟨("A", { items_completed := some (.str "oops") }), List.mem_cons_self _ _, Or.inl rfl⟩
  exact ⟨hx, (calculate_scoresD_spec _ _).2 hx⟩

end ScoreCalc

